import Mathlib

/- Formal model of the kubernetes manifest reconciliation controller
   from internal/app/machined/pkg/controllers/k8s/manifest.go.

   The managed namespace (k8s.ControlPlaneNamespaceName / k8s.ManifestType)
   is modelled as an association list from manifest name to payload bytes.
   The resource graph runtime operations used by the controller (Update,
   List, Destroy, Get) are modelled by the store operations below; destroy
   of an absent identity is treated as a store-level error, following the
   strict reading of the destroy contract in the spec (section 6). -/

abbrev Store := List (String × String)

namespace Store

/-- Identity listing of the managed namespace, in store order. -/
def ids (s : Store) : List String := s.map Prod.fst

/-- Point read of the payload stored under an identity. -/
def get? : Store → String → Option String
  | [], _ => none
  | p :: rest, id => if p.fst = id then some p.snd else get? rest id

/-- In-place replacement of the payload stored under an already-present identity. -/
def setId : Store → String → String → Store
  | [], _, _ => []
  | p :: rest, id, d => if p.fst = id then (id, d) :: setId rest id d else p :: setId rest id d

/-- Upsert, modelling runtime Update with a mutator that sets the payload:
if the identity is present its payload is replaced in place, otherwise a
new entry is created. -/
def update (s : Store) (id d : String) : Store :=
  if id ∈ ids s then setId s id d else s ++ [(id, d)]

/-- Removal of every entry stored under an identity. -/
def removeId : Store → String → Store
  | [], _ => []
  | p :: rest, id => if p.fst = id then removeId rest id else p :: removeId rest id

/-- Destroy, modelling runtime Destroy under the strict store contract:
destroying an absent identity is a store error. -/
def destroyE (s : Store) (id : String) : Except String Store :=
  if id ∈ ids s then Except.ok (removeId s id)
  else Except.error ("destroy: resource not found: " ++ id)

theorem ids_cons (p : String × String) (s : Store) : ids (p :: s) = p.fst :: ids s := rfl

theorem ids_append (s t : Store) : ids (s ++ t) = ids s ++ ids t := by
  simp [ids]

theorem get?_eq_none (s : Store) (x : String) (h : x ∉ ids s) : get? s x = none := by
  induction s with
  | nil => rfl
  | cons p rest ih =>
    have hp : ¬ (p.fst = x) := by
      intro hh
      exact h (by simp [ids_cons, hh])
    have hr : x ∉ ids rest := fun hh => h (by simp [ids_cons, hh])
    simp [get?, hp, ih hr]

theorem ids_setId (s : Store) (id d : String) : ids (setId s id d) = ids s := by
  induction s with
  | nil => rfl
  | cons p rest ih =>
    by_cases h : p.fst = id
    · simp [setId, h, ids_cons, ih]
    · simp [setId, h, ids_cons, ih]

theorem get?_setId_self (s : Store) (id d : String) (h : id ∈ ids s) :
    get? (setId s id d) id = some d := by
  induction s with
  | nil => cases h
  | cons p rest ih =>
    by_cases hp : p.fst = id
    · simp [setId, hp, get?]
    · have hr : id ∈ ids rest := by
        rcases (by simpa [ids_cons] using h : id = p.fst ∨ id ∈ ids rest) with h1 | h2
        · exact absurd h1.symm hp
        · exact h2
      simp [setId, hp, get?, ih hr]

theorem get?_setId_other (s : Store) (id d x : String) (hx : x ≠ id) :
    get? (setId s id d) x = get? s x := by
  induction s with
  | nil => rfl
  | cons p rest ih =>
    by_cases hp : p.fst = id
    · have hpx : ¬ (id = x) := fun hh => hx hh.symm
      simp [setId, hp, get?, hpx, ih]
    · simp [setId, hp, get?, ih]

theorem get?_append_right (s t : Store) (x : String) (h : x ∉ ids s) :
    get? (s ++ t) x = get? t x := by
  induction s with
  | nil => rfl
  | cons p rest ih =>
    have hp : ¬ (p.fst = x) := by
      intro hh
      exact h (by simp [ids_cons, hh])
    have hr : x ∉ ids rest := fun hh => h (by simp [ids_cons, hh])
    simp [get?, hp, ih hr]

theorem get?_append_left (s t : Store) (x : String) (h : x ∈ ids s) :
    get? (s ++ t) x = get? s x := by
  induction s with
  | nil => cases h
  | cons p rest ih =>
    by_cases hp : p.fst = x
    · simp [get?, hp]
    · have hr : x ∈ ids rest := by
        rcases (by simpa [ids_cons] using h : x = p.fst ∨ x ∈ ids rest) with h1 | h2
        · exact absurd h1.symm hp
        · exact h2
      simp [get?, hp, ih hr]

theorem get?_update_self (s : Store) (id d : String) : get? (update s id d) id = some d := by
  unfold update
  by_cases h : id ∈ ids s
  · simp [h, get?_setId_self s id d h]
  · simp [h, get?_append_right s [(id, d)] id h, get?]

theorem get?_update_other (s : Store) (id d x : String) (hx : x ≠ id) :
    get? (update s id d) x = get? s x := by
  unfold update
  by_cases h : id ∈ ids s
  · simp [h, get?_setId_other s id d x hx]
  · by_cases hm : x ∈ ids s
    · simp [h, get?_append_left s [(id, d)] x hm]
    · have h1 : get? (s ++ [(id, d)]) x = get? [(id, d)] x := get?_append_right s [(id, d)] x hm
      have hpx : ¬ (id = x) := fun hh => hx hh.symm
      have h2 : get? ([(id, d)] : Store) x = none := by simp [get?, hpx]
      have h3 : get? s x = none := get?_eq_none s x hm
      simp [h, h1, h2, h3]

theorem ids_update (s : Store) (id d : String) :
    ids (update s id d) = if id ∈ ids s then ids s else ids s ++ [id] := by
  unfold update
  by_cases h : id ∈ ids s
  · rw [if_pos h, if_pos h, ids_setId]
  · rw [if_neg h, if_neg h, ids_append]
    simp [ids]

theorem mem_ids_update (s : Store) (id d x : String) :
    x ∈ ids (update s id d) ↔ x ∈ ids s ∨ x = id := by
  rw [ids_update]
  by_cases h : id ∈ ids s
  · simp only [h, if_true]
    constructor
    · exact Or.inl
    · rintro (hx | hx)
      · exact hx
      · exact hx ▸ h
  · simp [h]

theorem nodup_ids_update (s : Store) (id d : String) (h : (ids s).Nodup) :
    (ids (update s id d)).Nodup := by
  rw [ids_update]
  by_cases hm : id ∈ ids s
  · simpa [hm] using h
  · simp only [hm, if_false]
    refine List.Nodup.append h (List.nodup_singleton id) ?_
    intro x hx hx2
    rw [List.mem_singleton] at hx2
    exact hm (hx2 ▸ hx)

theorem ids_removeId (s : Store) (id : String) :
    ids (removeId s id) = (ids s).filter (fun x => decide (x ≠ id)) := by
  induction s with
  | nil => rfl
  | cons p rest ih =>
    by_cases h : p.fst = id
    · simp [removeId, h, ids_cons, ih, List.filter_cons]
    · simp [removeId, h, ids_cons, ih, List.filter_cons]

theorem mem_ids_removeId (s : Store) (id x : String) :
    x ∈ ids (removeId s id) ↔ x ∈ ids s ∧ x ≠ id := by
  rw [ids_removeId]
  simp [List.mem_filter]

theorem nodup_ids_removeId (s : Store) (id : String) (h : (ids s).Nodup) :
    (ids (removeId s id)).Nodup := by
  rw [ids_removeId]
  exact h.filter _

theorem get?_removeId_other (s : Store) (id x : String) (hx : x ≠ id) :
    get? (removeId s id) x = get? s x := by
  induction s with
  | nil => rfl
  | cons p rest ih =>
    by_cases h : p.fst = id
    · have hix : ¬ (id = x) := fun hh => hx hh.symm
      simp [removeId, h, get?, hix, ih]
    · simp [removeId, h, get?, ih]

theorem destroyE_of_mem (s : Store) (id : String) (h : id ∈ ids s) :
    destroyE s id = Except.ok (removeId s id) := by
  simp [destroyE, h]

end Store

/-- Sequential destruction of a list of identities, propagating the first
store error, as the destroy loops in manifest.go do. -/
def destroyAll : List String → Store → Except String Store
  | [], s => Except.ok s
  | id :: rest, s =>
    match Store.destroyE s id with
    | Except.error e => Except.error e
    | Except.ok s2 => destroyAll rest s2

/-- Pure description of the effect of destroyAll when every destroy succeeds. -/
def removeAll : List String → Store → Store
  | [], s => s
  | id :: rest, s => removeAll rest (Store.removeId s id)

theorem destroyAll_ok (ids : List String) :
    ∀ s : Store, ids.Nodup → (∀ i ∈ ids, i ∈ Store.ids s) →
      destroyAll ids s = Except.ok (removeAll ids s) := by
  induction ids with
  | nil => intro s _ _; rfl
  | cons id rest ih =>
    intro s hnd hsub
    have hid : id ∈ Store.ids s := hsub id (List.mem_cons_self id rest)
    have hrest : ∀ i ∈ rest, i ∈ Store.ids (Store.removeId s id) := by
      intro i hi
      rw [Store.mem_ids_removeId]
      refine ⟨hsub i (List.mem_cons_of_mem id hi), ?_⟩
      intro hh
      exact (List.nodup_cons.mp hnd).1 (hh ▸ hi)
    simp [destroyAll, removeAll, Store.destroyE_of_mem s id hid,
      ih (Store.removeId s id) (List.nodup_cons.mp hnd).2 hrest]

theorem mem_ids_removeAll (l : List String) :
    ∀ (s : Store) (x : String), x ∈ Store.ids (removeAll l s) ↔ x ∈ Store.ids s ∧ x ∉ l := by
  induction l with
  | nil => intro s x; simp [removeAll]
  | cons id rest ih =>
    intro s x
    rw [removeAll, ih, Store.mem_ids_removeId]
    constructor
    · rintro ⟨⟨hs, hne⟩, hr⟩
      refine ⟨hs, ?_⟩
      intro hm
      rcases List.mem_cons.mp hm with h1 | h2
      · exact hne h1
      · exact hr h2
    · rintro ⟨hs, hm⟩
      refine ⟨⟨hs, fun hh => hm (hh ▸ List.mem_cons_self id rest)⟩, ?_⟩
      intro hr
      exact hm (List.mem_cons_of_mem id hr)

theorem get?_removeAll_of_not_mem (l : List String) :
    ∀ (s : Store) (x : String), x ∉ l → Store.get? (removeAll l s) x = Store.get? s x := by
  induction l with
  | nil => intro s x _; rfl
  | cons id rest ih =>
    intro s x hx
    have hxid : x ≠ id := fun hh => hx (hh ▸ List.mem_cons_self id rest)
    have hxr : x ∉ rest := fun hh => hx (List.mem_cons_of_mem id hh)
    rw [removeAll, ih _ x hxr, Store.get?_removeId_other s id x hxid]

/-- Modelled from the spec: the configuration snapshot
(config.K8sManifestsSpec, defined outside src).  It carries the two fields
whose values the render control flow inspects (manifest.go lines 168 and
176) together with the remaining rendering parameters (service CIDRs, DNS
addresses, feature toggles) folded into otherParams. -/
structure K8sManifestsSpec where
  DNSServiceIPv6 : String
  FlannelEnabled : Bool
  otherParams : String
deriving DecidableEq

/-- Modelled from the spec: the secret snapshot (secrets.KubernetesSpec,
defined outside src), credential and key material consumed by templates. -/
structure KubernetesSpec where
  secretData : String
deriving DecidableEq

/- Modelled from the spec: the literal template bodies live outside src and
are explicitly out of scope (spec section 1); each constant below stands in
for the corresponding template byte string referenced by manifest.go. -/

def kubeletBootstrappingToken : String := "tmpl-kubelet-bootstrapping-token"

def csrNodeBootstrapTemplate : String := "tmpl-csr-node-bootstrap"

def csrApproverRoleBindingTemplate : String := "tmpl-csr-approver-role-binding"

def csrRenewalRoleBindingTemplate : String := "tmpl-csr-renewal-role-binding"

def kubeSystemSARoleBindingTemplate : String := "tmpl-kube-system-sa-role-binding"

def podSecurityPolicy : String := "tmpl-pod-security-policy"

def kubeProxyTemplate : String := "tmpl-kube-proxy"

def kubeConfigInClusterTemplate : String := "tmpl-kube-config-in-cluster"

def coreDNSTemplate : String := "tmpl-core-dns"

def coreDNSSvcTemplate : String := "tmpl-core-dns-svc"

def coreDNSv6SvcTemplate : String := "tmpl-core-dns-v6-svc"

def flannelTemplate : String := "tmpl-flannel"

/-- Modelled from the spec: template execution (html/template Parse and
Execute, external to the core).  Section 4.5 requires it to be a pure
deterministic mapping from the template bytes and the two snapshots to
payload bytes; the concrete combination below is a stand-in for the
substitution result and parsing of the fixed shipped templates succeeds. -/
def executeTemplate (tmpl : String) (cfg : K8sManifestsSpec) (scrt : KubernetesSpec) : String :=
  tmpl ++ "|" ++ cfg.DNSServiceIPv6 ++ "|" ++ (if cfg.FlannelEnabled then "flannel-on" else "flannel-off")
    ++ "|" ++ cfg.otherParams ++ "|" ++ scrt.secretData

/-- Desired artifact produced by the renderer (struct renderedManifest in
manifest.go): a name and the rendered payload bytes. -/
structure renderedManifest where
  name : String
  data : String
deriving DecidableEq

/-- Manifest descriptors assembled by ManifestController.render
(manifest.go lines 155 to 182): the ten default manifests, then the IPv6
core DNS service when DNSServiceIPv6 is non-empty, then flannel when
FlannelEnabled is set. -/
def defaultManifestDescs (cfg : K8sManifestsSpec) : List (String × String) :=
  let base : List (String × String) :=
    [("00-kubelet-bootstrapping-token", kubeletBootstrappingToken),
     ("01-csr-node-bootstrap", csrNodeBootstrapTemplate),
     ("01-csr-approver-role-binding", csrApproverRoleBindingTemplate),
     ("01-csr-renewal-role-binding", csrRenewalRoleBindingTemplate),
     ("02-kube-system-sa-role-binding", kubeSystemSARoleBindingTemplate),
     ("03-default-pod-security-policy", podSecurityPolicy),
     ("10-kube-proxy", kubeProxyTemplate),
     ("11-kube-config-in-cluster", kubeConfigInClusterTemplate),
     ("11-core-dns", coreDNSTemplate),
     ("11-core-dns-svc", coreDNSSvcTemplate)]
  let withV6 : List (String × String) :=
    if cfg.DNSServiceIPv6 ≠ "" then base ++ [("11-core-dns-v6-svc", coreDNSv6SvcTemplate)] else base
  if cfg.FlannelEnabled then withV6 ++ [("05-flannel", flannelTemplate)] else withV6

/-- Names of the ten default manifests that render always emits. -/
def defaultManifestNames : List String :=
  ["00-kubelet-bootstrapping-token",
   "01-csr-node-bootstrap",
   "01-csr-approver-role-binding",
   "01-csr-renewal-role-binding",
   "02-kube-system-sa-role-binding",
   "03-default-pod-security-policy",
   "10-kube-proxy",
   "11-kube-config-in-cluster",
   "11-core-dns",
   "11-core-dns-svc"]

/-- ManifestController.render (manifest.go lines 140 to 203): map each
selected descriptor to a rendered manifest by executing its template
against the combined template configuration. -/
def render (cfg : K8sManifestsSpec) (scrt : KubernetesSpec) :
    Except String (List renderedManifest) :=
  Except.ok ((defaultManifestDescs cfg).map
    (fun d => { name := d.fst, data := executeTemplate d.snd cfg scrt }))

/-- Upsert phase of the convergence engine (manifest.go lines 100 to 109):
update every rendered manifest into the managed namespace in order. -/
def upsertAll : List renderedManifest → Store → Store
  | [], s => s
  | m :: rest, s => upsertAll rest (Store.update s m.name m.data)

/-- Delete set of the convergence engine (manifest.go lines 117 to 125):
the identities of the point-in-time listing that are not names of rendered
manifests. -/
def deleteList (names listed : List String) : List String :=
  listed.filter (fun id => decide (id ∉ names))

/-- Convergence engine phase of one cycle (manifest.go lines 100 to 131):
upsert every rendered manifest, then list the managed namespace, then
destroy every listed identity that was not rendered, wrapping a destroy
error as the cleanup error. -/
def converge (desired : List renderedManifest) (s : Store) : Except String Store :=
  let afterUpsert := upsertAll desired s
  let toDelete := deleteList (desired.map renderedManifest.name) (Store.ids afterUpsert)
  match destroyAll toDelete afterUpsert with
  | Except.error e => Except.error ("error cleaning up manifests: " ++ e)
  | Except.ok s2 => Except.ok s2

/-- ManifestController.teardownAll (manifest.go lines 205 to 218): list
the managed namespace and destroy every listed identity, wrapping a
destroy error. -/
def teardownAll (s : Store) : Except String Store :=
  match destroyAll (Store.ids s) s with
  | Except.error e => Except.error ("error destroying manifest: " ++ e)
  | Except.ok s2 => Except.ok s2

/-- Result of a point read of an input resource (runtime Get): found with
a snapshot, a not-found condition, or another store error. -/
inductive GetResult (α : Type) where
  | found : α → GetResult α
  | notFound : GetResult α
  | storeErr : String → GetResult α
deriving DecidableEq

/-- One reconciliation cycle of ManifestController.Run after a wake-up
(manifest.go lines 65 to 131): read the configuration input, read the
secret input, treating not-found as teardown and any other read error as
fatal, then render and converge. -/
def runCycle (cfgRes : GetResult K8sManifestsSpec) (scrtRes : GetResult KubernetesSpec)
    (s : Store) : Except String Store :=
  match cfgRes with
  | GetResult.storeErr e => Except.error e
  | GetResult.notFound =>
    match teardownAll s with
    | Except.error e => Except.error ("error tearing down: " ++ e)
    | Except.ok s2 => Except.ok s2
  | GetResult.found cfg =>
    match scrtRes with
    | GetResult.storeErr e => Except.error e
    | GetResult.notFound =>
      match teardownAll s with
      | Except.error e => Except.error ("error tearing down: " ++ e)
      | Except.ok s2 => Except.ok s2
    | GetResult.found scrt =>
      match render cfg scrt with
      | Except.error e => Except.error e
      | Except.ok desired => converge desired s

/-- One wake-up of the select at manifest.go lines 58 to 63: either the
context is cancelled or an event arrives, carrying the read results the
cycle will observe. -/
inductive Wake where
  | cancel : Wake
  | event : GetResult K8sManifestsSpec → GetResult KubernetesSpec → Wake
deriving DecidableEq

/-- Outcome of running the reconciler loop on a finite trace of wake-ups:
still blocked waiting, exited cleanly on cancellation, or exited with a
fatal error. -/
inductive LoopResult where
  | waiting : Store → LoopResult
  | cancelled : Store → LoopResult
  | fatal : String → LoopResult
deriving DecidableEq

/-- Reconciler loop of ManifestController.Run (manifest.go lines 58 to
132): block for the next wake-up; exit cleanly on cancellation; on an
event run one full cycle, exiting with a fatal error or looping. -/
def runLoop : List Wake → Store → LoopResult
  | [], s => LoopResult.waiting s
  | Wake.cancel :: _, s => LoopResult.cancelled s
  | Wake.event cfgRes scrtRes :: rest, s =>
    match runCycle cfgRes scrtRes s with
    | Except.error e => LoopResult.fatal e
    | Except.ok s2 => runLoop rest s2

/-- Strength of a declared dependency (controller.DependencyWeak). -/
inductive DependencyKind where
  | weak
  | strong
deriving DecidableEq

/-- Declared dependency triple with strength (controller.Dependency). -/
structure ControllerDependency where
  ns : String
  type : String
  id : Option String
  kind : DependencyKind
deriving DecidableEq

/-- Modelled from the spec: identity constants config.NamespaceName,
config.K8sControlPlaneType, config.K8sManifestsID, secrets.NamespaceName,
secrets.KubernetesType and secrets.KubernetesID, defined in resource
packages outside src; only their distinctness matters here. -/
def configNamespaceName : String := "config"

def k8sControlPlaneType : String := "KubernetesControlPlaneConfig"

def k8sManifestsID : String := "manifests"

def secretsNamespaceName : String := "secrets"

def secretsKubernetesType : String := "KubernetesSecrets"

def secretsKubernetesID : String := "kubernetes"

/-- Dependencies registered by ManifestController.Run before the loop
(manifest.go lines 41 to 54): the configuration input and the secret
input, each weak. -/
def manifestDependencies : List ControllerDependency :=
  [{ ns := configNamespaceName, type := k8sControlPlaneType,
     id := some k8sManifestsID, kind := DependencyKind.weak },
   { ns := secretsNamespaceName, type := secretsKubernetesType,
     id := some secretsKubernetesID, kind := DependencyKind.weak }]

/-- ManifestController.Run entry (manifest.go lines 41 to 58): the
dependency declaration happens once, before the loop; declErr is the
outcome the resource graph returns for registering manifestDependencies.
A rejection is returned, wrapped, without entering the loop. -/
def runController (declErr : Option String) (trace : List Wake) (s : Store) : LoopResult :=
  match declErr with
  | some e => LoopResult.fatal ("error setting up dependencies: " ++ e)
  | none => runLoop trace s

theorem mem_ids_upsertAll (D : List renderedManifest) :
    ∀ (s : Store) (x : String),
      x ∈ Store.ids (upsertAll D s) ↔ x ∈ Store.ids s ∨ x ∈ D.map renderedManifest.name := by
  induction D with
  | nil => intro s x; simp [upsertAll]
  | cons m rest ih =>
    intro s x
    rw [upsertAll, ih, Store.mem_ids_update]
    simp only [List.map_cons, List.mem_cons]
    tauto

theorem nodup_ids_upsertAll (D : List renderedManifest) :
    ∀ s : Store, (Store.ids s).Nodup → (Store.ids (upsertAll D s)).Nodup := by
  induction D with
  | nil => intro s h; exact h
  | cons m rest ih =>
    intro s h
    exact ih _ (Store.nodup_ids_update s m.name m.data h)

theorem get?_upsertAll_of_not_mem (D : List renderedManifest) :
    ∀ (s : Store) (x : String), x ∉ D.map renderedManifest.name →
      Store.get? (upsertAll D s) x = Store.get? s x := by
  induction D with
  | nil => intro s x _; rfl
  | cons m rest ih =>
    intro s x hx
    have hxm : x ≠ m.name := fun hh => hx (by simp [hh])
    have hxr : x ∉ rest.map renderedManifest.name := fun hh => hx (by simp [hh])
    rw [upsertAll, ih _ x hxr, Store.get?_update_other s m.name m.data x hxm]

theorem get?_upsertAll_of_mem (D : List renderedManifest) :
    ∀ s : Store, (D.map renderedManifest.name).Nodup →
      ∀ m ∈ D, Store.get? (upsertAll D s) m.name = some m.data := by
  induction D with
  | nil => intro s _ m hm; cases hm
  | cons d rest ih =>
    intro s hnd m hm
    rw [List.map_cons, List.nodup_cons] at hnd
    rcases List.mem_cons.mp hm with h1 | h2
    · subst h1
      rw [upsertAll, get?_upsertAll_of_not_mem rest _ _ hnd.1, Store.get?_update_self]
    · rw [upsertAll]
      exact ih _ hnd.2 m h2

theorem mem_deleteList (names listed : List String) (x : String) :
    x ∈ deleteList names listed ↔ x ∈ listed ∧ x ∉ names := by
  simp [deleteList, List.mem_filter]

theorem nodup_deleteList (names listed : List String) (h : listed.Nodup) :
    (deleteList names listed).Nodup := h.filter _

/-- Final store of a convergence phase in which every destroy succeeded. -/
def convergeResult (desired : List renderedManifest) (s : Store) : Store :=
  removeAll (deleteList (desired.map renderedManifest.name) (Store.ids (upsertAll desired s)))
    (upsertAll desired s)

theorem converge_eq (desired : List renderedManifest) (s : Store) (h : (Store.ids s).Nodup) :
    converge desired s = Except.ok (convergeResult desired s) := by
  have hnd : (Store.ids (upsertAll desired s)).Nodup := nodup_ids_upsertAll desired s h
  have hsub : ∀ i ∈ deleteList (desired.map renderedManifest.name)
      (Store.ids (upsertAll desired s)), i ∈ Store.ids (upsertAll desired s) := by
    intro i hi
    exact ((mem_deleteList _ _ i).mp hi).1
  simp only [converge, convergeResult]
  rw [destroyAll_ok _ _ (nodup_deleteList _ _ hnd) hsub]

theorem store_eq_nil_of_ids (s : Store) (h : ∀ x, x ∉ Store.ids s) : s = [] := by
  cases s with
  | nil => rfl
  | cons p rest => exact absurd (List.mem_cons_self p.fst (Store.ids rest)) (h p.fst)

theorem teardownAll_eq_empty (s : Store) (h : (Store.ids s).Nodup) :
    teardownAll s = Except.ok [] := by
  have hsub : ∀ i ∈ Store.ids s, i ∈ Store.ids s := fun i hi => hi
  have hempty : removeAll (Store.ids s) s = [] := by
    refine store_eq_nil_of_ids _ ?_
    intro x hx
    exact ((mem_ids_removeAll _ _ x).mp hx).2 ((mem_ids_removeAll _ _ x).mp hx).1
  unfold teardownAll
  rw [destroyAll_ok _ s h hsub, hempty]

theorem render_ok_elim (cfg : K8sManifestsSpec) (scrt : KubernetesSpec)
    (D : List renderedManifest) (h : render cfg scrt = Except.ok D) :
    D = (defaultManifestDescs cfg).map
      (fun d => { name := d.fst, data := executeTemplate d.snd cfg scrt }) := by
  simpa [render] using h.symm

theorem render_ok_names (cfg : K8sManifestsSpec) (scrt : KubernetesSpec)
    (D : List renderedManifest) (h : render cfg scrt = Except.ok D) :
    D.map renderedManifest.name = (defaultManifestDescs cfg).map Prod.fst := by
  rw [render_ok_elim cfg scrt D h, List.map_map]
  rfl

theorem descs_names_spec (cfg : K8sManifestsSpec) :
    ((defaultManifestDescs cfg).map Prod.fst).Nodup ∧
    (("11-core-dns-v6-svc" ∈ (defaultManifestDescs cfg).map Prod.fst) ↔ cfg.DNSServiceIPv6 ≠ "") ∧
    (("05-flannel" ∈ (defaultManifestDescs cfg).map Prod.fst) ↔ cfg.FlannelEnabled = true) ∧
    (∀ n ∈ defaultManifestNames, n ∈ (defaultManifestDescs cfg).map Prod.fst) ∧
    defaultManifestDescs cfg ≠ [] := by
  by_cases hv : cfg.DNSServiceIPv6 = "" <;> by_cases hf : cfg.FlannelEnabled = true <;>
    refine ⟨?_, ?_, ?_, ?_, ?_⟩ <;>
    simp [defaultManifestDescs, hv, hf, defaultManifestNames]

/- Concrete fixtures used by the witnesses below. -/

def staleID : String := "stale-manifest"

def stalePayload : String := "old-payload"

def storeA : Store := [(staleID, stalePayload)]

def cfgA : K8sManifestsSpec :=
  { DNSServiceIPv6 := "fd00--10", FlannelEnabled := true, otherParams := "10.96.0.0" }

def scrtA : KubernetesSpec := { secretData := "ca-cert-bytes" }

def renderedA : List renderedManifest :=
  (defaultManifestDescs cfgA).map
    (fun d => { name := d.fst, data := executeTemplate d.snd cfgA scrtA })

def mA : renderedManifest := { name := "a-manifest", data := "payload-a" }

def declineMsg : String := "malformed identity"

def dupStore : Store := [("dup-manifest", "p1"), ("dup-manifest", "p2")]

/-- C1: for any desired list produced by the renderer and any prior managed
namespace with distinct identities, after the convergence phase of a
successful cycle the identity set of the managed namespace equals exactly
the set of rendered names, and the payload stored under each rendered name
is the rendered payload. -/
theorem c1_convergence (cfg : K8sManifestsSpec) (scrt : KubernetesSpec)
    (D : List renderedManifest) (M : Store)
    (hD : render cfg scrt = Except.ok D) (hM : (Store.ids M).Nodup) :
    converge D M = Except.ok (convergeResult D M) ∧
    (∀ id, id ∈ Store.ids (convergeResult D M) ↔ id ∈ D.map renderedManifest.name) ∧
    (∀ m ∈ D, Store.get? (convergeResult D M) m.name = some m.data) := by
  have hnames : D.map renderedManifest.name = (defaultManifestDescs cfg).map Prod.fst :=
    render_ok_names cfg scrt D hD
  have hnd : (D.map renderedManifest.name).Nodup := by
    rw [hnames]
    exact (descs_names_spec cfg).1
  refine ⟨converge_eq D M hM, ?_, ?_⟩
  · intro id
    unfold convergeResult
    rw [mem_ids_removeAll]
    constructor
    · rintro ⟨h1, h2⟩
      by_contra hno
      exact h2 ((mem_deleteList _ _ id).mpr ⟨h1, hno⟩)
    · intro hid
      refine ⟨(mem_ids_upsertAll D M id).mpr (Or.inr hid), ?_⟩
      intro hdel
      exact ((mem_deleteList _ _ id).mp hdel).2 hid
  · intro m hm
    unfold convergeResult
    have hname_mem : m.name ∈ D.map renderedManifest.name :=
      List.mem_map_of_mem renderedManifest.name hm
    have hnotdel : m.name ∉
        deleteList (D.map renderedManifest.name) (Store.ids (upsertAll D M)) := by
      intro hdel
      exact ((mem_deleteList _ _ m.name).mp hdel).2 hname_mem
    rw [get?_removeAll_of_not_mem _ _ _ hnotdel]
    exact get?_upsertAll_of_mem D M hnd m hm

/-- Witness for C1 at a concrete configuration, secret and prior store. -/
theorem c1_convergence_witness :
    render cfgA scrtA = Except.ok renderedA ∧
    (Store.ids storeA).Nodup ∧
    (converge renderedA storeA = Except.ok (convergeResult renderedA storeA) ∧
     (∀ id, id ∈ Store.ids (convergeResult renderedA storeA) ↔
        id ∈ renderedA.map renderedManifest.name) ∧
     (∀ m ∈ renderedA, Store.get? (convergeResult renderedA storeA) m.name = some m.data)) :=
  ⟨rfl, by decide, c1_convergence cfgA scrtA renderedA storeA rfl (by decide)⟩

/-- C2 counterexample: the teardown path does not ignore a store error for
destroying an already-absent identity; on a store whose listing reports an
identity twice, the second destroy targets an absent identity and the
resulting error is propagated out of teardown, wrapped, instead of being
tolerated. -/
theorem c2_counterexample :
    teardownAll dupStore =
      Except.error ("error destroying manifest: " ++
        ("destroy: resource not found: " ++ "dup-manifest")) := by
  rfl

/-- C2 (amended): within teardown the core propagates destroy errors
rather than ignoring them; teardown is nevertheless idempotent at the
engine level because it only destroys identities returned by its own
listing, so when the managed namespace holds distinct identities every
destroy it issues targets a present identity, no missing-destroy error
arises, and teardown succeeds leaving the namespace empty. -/
theorem c2_teardown_amended (s : Store) (h : (Store.ids s).Nodup) :
    teardownAll s = Except.ok [] ∧
    (∀ i ∈ Store.ids s, Store.destroyE s i = Except.ok (Store.removeId s i)) := by
  refine ⟨teardownAll_eq_empty s h, ?_⟩
  intro i hi
  exact Store.destroyE_of_mem s i hi

/-- Witness for the amended C2 at a concrete store. -/
theorem c2_teardown_amended_witness :
    (Store.ids storeA).Nodup ∧
    (teardownAll storeA = Except.ok [] ∧
     (∀ i ∈ Store.ids storeA, Store.destroyE storeA i = Except.ok (Store.removeId storeA i))) :=
  ⟨by decide, c2_teardown_amended storeA (by decide)⟩

/-- C3: a cycle whose configuration read returns not-found, and likewise a
cycle whose secret read returns not-found, invokes teardown so the managed
namespace ends empty, the cycle returns no error, and the loop continues
to the next wait. -/
theorem c3_absent_inputs (k : GetResult KubernetesSpec) (cfg : K8sManifestsSpec)
    (s : Store) (h : (Store.ids s).Nodup) :
    runCycle GetResult.notFound k s = Except.ok [] ∧
    runCycle (GetResult.found cfg) GetResult.notFound s = Except.ok [] ∧
    (∀ rest, runLoop (Wake.event GetResult.notFound k :: rest) s = runLoop rest []) ∧
    (∀ rest, runLoop (Wake.event (GetResult.found cfg) GetResult.notFound :: rest) s =
      runLoop rest []) := by
  have ht := teardownAll_eq_empty s h
  refine ⟨?_, ?_, ?_, ?_⟩
  · simp [runCycle, ht]
  · simp [runCycle, ht]
  · intro rest
    simp [runLoop, runCycle, ht]
  · intro rest
    simp [runLoop, runCycle, ht]

/-- Witness for C3 at a concrete store: both absence cycles succeed with
an empty namespace and the loop returns to waiting. -/
theorem c3_absent_inputs_witness :
    (Store.ids storeA).Nodup ∧
    runCycle GetResult.notFound GetResult.notFound storeA = Except.ok [] ∧
    runCycle (GetResult.found cfgA) GetResult.notFound storeA = Except.ok [] ∧
    runLoop [Wake.event GetResult.notFound GetResult.notFound] storeA = LoopResult.waiting [] ∧
    runLoop [Wake.event (GetResult.found cfgA) GetResult.notFound] storeA =
      LoopResult.waiting [] :=
  ⟨by decide,
   (c3_absent_inputs GetResult.notFound cfgA storeA (by decide)).1,
   (c3_absent_inputs GetResult.notFound cfgA storeA (by decide)).2.1,
   ((c3_absent_inputs GetResult.notFound cfgA storeA (by decide)).2.2.1 []).trans rfl,
   ((c3_absent_inputs GetResult.notFound cfgA storeA (by decide)).2.2.2 []).trans rfl⟩

/-- C4: the listing that feeds the delete set is taken after all upserts
of the cycle, so every rendered name is present in that listing, and no
identity in the delete set equals the name of a rendered manifest of the
same cycle. -/
theorem c4_no_desired_deleted (D : List renderedManifest) (s : Store) :
    (∀ m ∈ D, m.name ∈ Store.ids (upsertAll D s)) ∧
    (∀ id ∈ deleteList (D.map renderedManifest.name) (Store.ids (upsertAll D s)),
      ∀ m ∈ D, m.name ≠ id) := by
  constructor
  · intro m hm
    exact (mem_ids_upsertAll D s m.name).mpr
      (Or.inr (List.mem_map_of_mem renderedManifest.name hm))
  · intro id hid m hm hEq
    exact ((mem_deleteList _ _ id).mp hid).2
      (hEq ▸ List.mem_map_of_mem renderedManifest.name hm)

/-- Witness for C4 at a concrete desired list and store: the upserted name
is listed, the stale identity is in the delete set, and the rendered name
differs from it. -/
theorem c4_no_desired_deleted_witness :
    mA ∈ [mA] ∧
    renderedManifest.name mA ∈ Store.ids (upsertAll [mA] storeA) ∧
    staleID ∈ deleteList ([mA].map renderedManifest.name) (Store.ids (upsertAll [mA] storeA)) ∧
    renderedManifest.name mA ≠ staleID :=
  ⟨by decide,
   (c4_no_desired_deleted [mA] storeA).1 mA (by decide),
   by decide,
   (c4_no_desired_deleted [mA] storeA).2 staleID (by decide) mA (by decide)⟩

/-- C5: a successful teardown leaves the managed namespace empty for any
prior contents with distinct identities, tearing down the already-empty
namespace is a successful no-op, and running teardown twice in a row
yields the same empty final state as running it once. -/
theorem c5_teardown_total (s : Store) (h : (Store.ids s).Nodup) :
    teardownAll s = Except.ok [] ∧
    teardownAll ([] : Store) = Except.ok [] ∧
    Except.bind (teardownAll s) teardownAll = teardownAll s := by
  have h1 := teardownAll_eq_empty s h
  have h0 : teardownAll ([] : Store) = Except.ok [] := rfl
  refine ⟨h1, h0, ?_⟩
  rw [h1]
  exact h0

/-- Witness for C5 at a concrete non-empty store. -/
theorem c5_teardown_total_witness :
    (Store.ids storeA).Nodup ∧
    (teardownAll storeA = Except.ok [] ∧
     teardownAll ([] : Store) = Except.ok [] ∧
     Except.bind (teardownAll storeA) teardownAll = teardownAll storeA) :=
  ⟨by decide, c5_teardown_total storeA (by decide)⟩

/-- C6: the renderer is deterministic; on equal configuration and secret
snapshots two invocations of render produce equal rendered lists, with the
same names in the same order and equal payload bytes. -/
theorem c6_render_deterministic (cfg1 cfg2 : K8sManifestsSpec) (scrt1 scrt2 : KubernetesSpec)
    (hc : cfg1 = cfg2) (hs : scrt1 = scrt2) :
    render cfg1 scrt1 = render cfg2 scrt2 := by
  rw [hc, hs]

/-- Witness for C6 at concrete snapshots. -/
theorem c6_render_deterministic_witness :
    cfgA = cfgA ∧ scrtA = scrtA ∧ render cfgA scrtA = render cfgA scrtA :=
  ⟨rfl, rfl, c6_render_deterministic cfgA cfgA scrtA scrtA rfl rfl⟩

/-- C7: conditional inclusion is decided inside the renderer from the
configuration snapshot: the rendered list contains the IPv6 core DNS
service artifact exactly when DNSServiceIPv6 is non-empty, the flannel
artifact exactly when FlannelEnabled is set, and the ten default
artifacts are always present. -/
theorem c7_conditional_inclusion (cfg : K8sManifestsSpec) (scrt : KubernetesSpec)
    (D : List renderedManifest) (hD : render cfg scrt = Except.ok D) :
    (("11-core-dns-v6-svc" ∈ D.map renderedManifest.name) ↔ cfg.DNSServiceIPv6 ≠ "") ∧
    (("05-flannel" ∈ D.map renderedManifest.name) ↔ cfg.FlannelEnabled = true) ∧
    (∀ n ∈ defaultManifestNames, n ∈ D.map renderedManifest.name) := by
  rw [render_ok_names cfg scrt D hD]
  exact ⟨(descs_names_spec cfg).2.1, (descs_names_spec cfg).2.2.1,
    (descs_names_spec cfg).2.2.2.1⟩

/-- Witness for C7 at a configuration with both optional artifacts on. -/
theorem c7_conditional_inclusion_witness :
    render cfgA scrtA = Except.ok renderedA ∧
    ((("11-core-dns-v6-svc" ∈ renderedA.map renderedManifest.name) ↔
        cfgA.DNSServiceIPv6 ≠ "") ∧
     (("05-flannel" ∈ renderedA.map renderedManifest.name) ↔ cfgA.FlannelEnabled = true) ∧
     (∀ n ∈ defaultManifestNames, n ∈ renderedA.map renderedManifest.name)) :=
  ⟨rfl, c7_conditional_inclusion cfgA scrtA renderedA rfl⟩

/-- C8: the reconciler loop exits cleanly, with no error and the store
untouched, when cancellation arrives while it is waiting; cancellation is
observed only at the suspension point, so an event already received runs
its full cycle and a pending cancellation takes effect only after that
cycle completes. -/
theorem c8_cancellation :
    (∀ (rest : List Wake) (s : Store),
      runLoop (Wake.cancel :: rest) s = LoopResult.cancelled s) ∧
    (∀ (c : GetResult K8sManifestsSpec) (k : GetResult KubernetesSpec) (rest : List Wake)
       (s s2 : Store), runCycle c k s = Except.ok s2 →
        runLoop (Wake.event c k :: Wake.cancel :: rest) s = LoopResult.cancelled s2) := by
  constructor
  · intro rest s
    rfl
  · intro c k rest s s2 hc
    simp [runLoop, hc]

/-- Witness for C8 at concrete traces: cancellation while waiting exits
cleanly, and a completed absence cycle takes effect before a pending
cancellation is honored. -/
theorem c8_cancellation_witness :
    runLoop [Wake.cancel] storeA = LoopResult.cancelled storeA ∧
    runCycle GetResult.notFound GetResult.notFound storeA = Except.ok [] ∧
    runLoop [Wake.event GetResult.notFound GetResult.notFound, Wake.cancel] storeA =
      LoopResult.cancelled [] :=
  ⟨c8_cancellation.1 [] storeA, rfl,
   c8_cancellation.2 GetResult.notFound GetResult.notFound [] storeA [] rfl⟩

/-- C9: dependency declaration happens once, before the wake loop,
registering the configuration input and the secret input as weak
dependencies; a rejected declaration makes the controller return the
wrapped error for every trace, so the loop never starts, while an
accepted declaration hands control straight to the loop. -/
theorem c9_dependencies :
    manifestDependencies.length = 2 ∧
    (∀ d ∈ manifestDependencies, d.kind = DependencyKind.weak) ∧
    manifestDependencies.map ControllerDependency.ns =
      [configNamespaceName, secretsNamespaceName] ∧
    (∀ (e : String) (trace : List Wake) (s : Store),
      runController (some e) trace s =
        LoopResult.fatal ("error setting up dependencies: " ++ e)) ∧
    (∀ (trace : List Wake) (s : Store), runController none trace s = runLoop trace s) := by
  refine ⟨rfl, by decide, rfl, ?_, ?_⟩
  · intro e trace s
    rfl
  · intro trace s
    rfl

/-- Witness for C9 at a concrete rejection message and trace: the loop is
never entered on rejection, even when the first wake would be a clean
cancellation, and acceptance enters the loop. -/
theorem c9_dependencies_witness :
    runController (some declineMsg) [Wake.cancel] storeA =
      LoopResult.fatal ("error setting up dependencies: " ++ declineMsg) ∧
    runController none [Wake.cancel] storeA = runLoop [Wake.cancel] storeA :=
  ⟨c9_dependencies.2.2.2.1 declineMsg [Wake.cancel] storeA,
   c9_dependencies.2.2.2.2 [Wake.cancel] storeA⟩

/-- C10: whenever render succeeds, the returned list is non-empty, it
contains all ten default manifests, and its names are pairwise distinct,
so each name identifies at most one payload within a cycle. -/
theorem c10_render_nonempty_nodup (cfg : K8sManifestsSpec) (scrt : KubernetesSpec)
    (D : List renderedManifest) (hD : render cfg scrt = Except.ok D) :
    D ≠ [] ∧ (D.map renderedManifest.name).Nodup ∧
    (∀ n ∈ defaultManifestNames, n ∈ D.map renderedManifest.name) := by
  have hnames := render_ok_names cfg scrt D hD
  refine ⟨?_, ?_, ?_⟩
  · intro hnil
    have hmap : (defaultManifestDescs cfg).map Prod.fst = [] := by
      rw [← hnames, hnil]
      rfl
    exact (descs_names_spec cfg).2.2.2.2 (List.map_eq_nil_iff.mp hmap)
  · rw [hnames]
    exact (descs_names_spec cfg).1
  · rw [hnames]
    exact (descs_names_spec cfg).2.2.2.1

/-- Witness for C10 at concrete snapshots. -/
theorem c10_render_nonempty_nodup_witness :
    render cfgA scrtA = Except.ok renderedA ∧
    (renderedA ≠ [] ∧ (renderedA.map renderedManifest.name).Nodup ∧
     (∀ n ∈ defaultManifestNames, n ∈ renderedA.map renderedManifest.name)) :=
  ⟨rfl, c10_render_nonempty_nodup cfgA scrtA renderedA rfl⟩
